import Mathlib

/-!
Verification of the agent core of a deep reinforcement-learning library
(DQN and A2C agents).  The shallow embedding below models the agents'
pure data flow over exact rationals: tensors of Q-values, rewards,
terminals and observations become lists or index functions over `ℚ`;
the PyTorch autograd distinction between tracked and untracked
computations (`torch.no_grad`, `.detach()`) is modelled by forward-mode
dual numbers, where the `der` component carries first-order sensitivity
and detaching zeroes it; randomness (`np.random.random`,
`np.random.randint`) is passed in as explicit oracle inputs.
-/

/-- Forward-mode dual number over `ℚ`: `val` is the computed value, `der`
its directional derivative.  Detaching a tensor from the autograd graph
corresponds to zeroing `der`. -/
structure Dual where
  val : ℚ
  der : ℚ
  deriving DecidableEq, Repr

namespace Dual

/-- A constant (gradient-free) quantity entering the computation graph. -/
def const (q : ℚ) : Dual := ⟨q, 0⟩

/-- Model of `Tensor.detach()` / results produced under `torch.no_grad()`. -/
def detach (x : Dual) : Dual := ⟨x.val, 0⟩

instance : Add Dual := ⟨fun x y => ⟨x.val + y.val, x.der + y.der⟩⟩

instance : Sub Dual := ⟨fun x y => ⟨x.val - y.val, x.der - y.der⟩⟩

instance : Mul Dual := ⟨fun x y => ⟨x.val * y.val, x.val * y.der + x.der * y.val⟩⟩

instance : Neg Dual := ⟨fun x => ⟨-x.val, -x.der⟩⟩

/-- Multiplication by a gradient-free scalar. -/
def scale (c : ℚ) (x : Dual) : Dual := ⟨c * x.val, c * x.der⟩

theorem ext (a b : Dual) (h1 : a.val = b.val) (h2 : a.der = b.der) : a = b := by
  cases a; cases b; simp_all

@[simp] theorem const_val (q : ℚ) : (const q).val = q := rfl
@[simp] theorem const_der (q : ℚ) : (const q).der = 0 := rfl
@[simp] theorem detach_val (x : Dual) : (detach x).val = x.val := rfl
@[simp] theorem detach_der (x : Dual) : (detach x).der = 0 := rfl
@[simp] theorem add_val (x y : Dual) : (x + y).val = x.val + y.val := rfl
@[simp] theorem add_der (x y : Dual) : (x + y).der = x.der + y.der := rfl
@[simp] theorem sub_val (x y : Dual) : (x - y).val = x.val - y.val := rfl
@[simp] theorem sub_der (x y : Dual) : (x - y).der = x.der - y.der := rfl
@[simp] theorem mul_val (x y : Dual) : (x * y).val = x.val * y.val := rfl
@[simp] theorem mul_der (x y : Dual) : (x * y).der = x.val * y.der + x.der * y.val := rfl
@[simp] theorem neg_val (x : Dual) : (-x).val = -x.val := rfl
@[simp] theorem neg_der (x : Dual) : (-x).der = -x.der := rfl
@[simp] theorem scale_val (c : ℚ) (x : Dual) : (scale c x).val = c * x.val := rfl
@[simp] theorem scale_der (c : ℚ) (x : Dual) : (scale c x).der = c * x.der := rfl

end Dual

/-- Sum of the first `n` values of a rational sequence. -/
def qsum : ℕ → (ℕ → ℚ) → ℚ
  | 0, _ => 0
  | n + 1, f => qsum n f + f n

/-- Mean of the first `n` values of a rational sequence
(model of `Tensor.mean()` on plain values). -/
def qmean (n : ℕ) (f : ℕ → ℚ) : ℚ := (1 / (n : ℚ)) * qsum n f

/-- Sum of the first `n` values of a dual-number sequence. -/
def dsum : ℕ → (ℕ → Dual) → Dual
  | 0, _ => Dual.const 0
  | n + 1, f => dsum n f + f n

/-- Mean of the first `n` values of a dual-number sequence
(model of `Tensor.mean()` under autograd). -/
def dmean (n : ℕ) (f : ℕ → Dual) : Dual := Dual.scale (1 / (n : ℚ)) (dsum n f)

theorem dsum_val (n : ℕ) (f : ℕ → Dual) :
    (dsum n f).val = qsum n (fun i => (f i).val) := by
  induction n with
  | zero => simp [dsum, qsum]
  | succ n ih => simp [dsum, qsum, ih]

theorem dsum_der (n : ℕ) (f : ℕ → Dual) :
    (dsum n f).der = qsum n (fun i => (f i).der) := by
  induction n with
  | zero => simp [dsum, qsum]
  | succ n ih => simp [dsum, qsum, ih]

theorem dsum_congr (n : ℕ) (f g : ℕ → Dual) (h : ∀ i, i < n → f i = g i) :
    dsum n f = dsum n g := by
  induction n with
  | zero => rfl
  | succ n ih =>
      simp only [dsum]
      rw [ih (fun i hi => h i (Nat.lt_succ_of_lt hi)), h n (Nat.lt_succ_self n)]

theorem qsum_congr (n : ℕ) (f g : ℕ → ℚ) (h : ∀ i, i < n → f i = g i) :
    qsum n f = qsum n g := by
  induction n with
  | zero => rfl
  | succ n ih =>
      simp only [qsum]
      rw [ih (fun i hi => h i (Nat.lt_succ_of_lt hi)), h n (Nat.lt_succ_self n)]

theorem dmean_val (n : ℕ) (f : ℕ → Dual) :
    (dmean n f).val = qmean n (fun i => (f i).val) := by
  simp [dmean, qmean, dsum_val]

/-!
## DQN agent: exploration-schedule dispatch (`Agent.training_priors`)

Embeds the branch of `training_priors` in `agents/DQN.py` that selects
the epsilon-annealing schedule from the shape of `config.epsilon_final`
and the value of `config.epsilon_decay[0]`.
-/

/-- Which schedule class `training_priors` constructs. -/
inductive ScheduleKind where
  | linear : ScheduleKind
  | exponential : ScheduleKind
  | piecewise : ScheduleKind
  deriving DecidableEq, Repr

/-- Dispatch logic of `Agent.training_priors` (agents/DQN.py, lines 65-71):
`if len(epsilon_final) == 1: (ExponentialSchedule if epsilon_decay[0] > 1.0
else LinearSchedule) else: PiecewiseSchedule`. -/
def choose_anneal_eps (epsilonFinal epsilonDecay : List ℚ) : ScheduleKind :=
  if epsilonFinal.length = 1 then
    if 1 < epsilonDecay.headD 0 then ScheduleKind.exponential else ScheduleKind.linear
  else ScheduleKind.piecewise

/-- C10: the exploration-schedule dispatch is determined by the shape of the
configuration: a one-element `epsilon_final` yields an ExponentialSchedule
when `epsilon_decay[0] > 1.0` and a LinearSchedule otherwise; an
`epsilon_final` with more than one element yields a PiecewiseSchedule. -/
theorem dqn_c10_schedule_dispatch (f d : List ℚ) :
    (f.length = 1 →
      (1 < d.headD 0 → choose_anneal_eps f d = ScheduleKind.exponential) ∧
      (d.headD 0 ≤ 1 → choose_anneal_eps f d = ScheduleKind.linear)) ∧
    (1 < f.length → choose_anneal_eps f d = ScheduleKind.piecewise) := by
  constructor
  · intro h1
    constructor
    · intro hd
      rw [choose_anneal_eps, if_pos h1, if_pos hd]
    · intro hd
      rw [choose_anneal_eps, if_pos h1, if_neg (not_lt.mpr hd)]
  · intro h1
    have h2 : f.length ≠ 1 := by omega
    rw [choose_anneal_eps, if_neg h2]

theorem dqn_c10_witness :
    choose_anneal_eps [1/100] [2] = ScheduleKind.exponential ∧
    choose_anneal_eps [1/100] [1/2] = ScheduleKind.linear ∧
    choose_anneal_eps [1/100, 1/50] [3, 4] = ScheduleKind.piecewise :=
  ⟨((dqn_c10_schedule_dispatch [1/100] [2]).1 (by decide)).1 (by norm_num),
   ((dqn_c10_schedule_dispatch [1/100] [1/2]).1 (by decide)).2 (by norm_num),
   (dqn_c10_schedule_dispatch [1/100, 1/50] [3, 4]).2 (by decide)⟩

/-!
## DQN agent: epsilon-greedy action selection (`Agent.get_action`)

`get_action` in agents/DQN.py (lines 255-264) draws a SINGLE uniform
sample `u = np.random.random()` per call; if `u > eps or static_policy
or noisy_nets` it returns the per-row argmax of the Q-network output,
otherwise one uniform random action per environment
(`np.random.randint(0, num_actions, (s.shape[0]))`).  The random draws
are passed to the embedding explicitly: `u` for the single shared draw,
`randActs` for the batch of random actions; the Q-network (an external
collaborator, including the `s_norm` input normalization folded into it)
is an opaque function from an observation to a list of Q-values. -/
def argmaxAux : List ℚ → ℕ → ℕ → ℚ → ℕ
  | [], _, best, _ => best
  | x :: xs, i, best, bv =>
      if bv < x then argmaxAux xs (i + 1) i x else argmaxAux xs (i + 1) best bv

/-- Model of `torch.argmax` over one row: index of the first maximal entry. -/
def argmaxIdx : List ℚ → ℕ
  | [] => 0
  | x :: xs => argmaxAux xs 1 0 x

/-- Embedding of `Agent.get_action` (agents/DQN.py, lines 255-264). -/
def dqn_get_action (u eps : ℚ) (staticPolicy noisyNets : Bool)
    (qnet : List ℚ → List ℚ) (s : List (List ℚ)) (randActs : List ℕ) : List ℕ :=
  if eps < u ∨ staticPolicy = true ∨ noisyNets = true then
    s.map (fun o => argmaxIdx (qnet o))
  else randActs

/-- Reading of the C5 claim text (not of the source): every environment
makes its own explore-versus-exploit decision from its own independent
uniform draw `us i`. -/
def dqn_get_action_claim (us : List ℚ) (eps : ℚ)
    (qnet : List ℚ → List ℚ) (s : List (List ℚ)) (randActs : List ℕ) : List ℕ :=
  (us.zip (s.zip randActs)).map
    (fun p => if eps < p.1 then argmaxIdx (qnet p.2.1) else p.2.2)

/-- Q-network used in the C5 counterexample: action 0 is always greedy. -/
def c5_qnet : List ℚ → List ℚ := fun _ => [3, 1, 0]

/-- C5 counterexample: with two environments, `eps = 1/2`, greedy action 0
and random actions `[2, 2]`, the per-environment-independent reading of the
claim can produce the mixed outcome `[0, 2]` (environment 0 exploits,
environment 1 explores), but no value of the single shared draw `u` makes
the implemented `get_action` produce it: the code decides explore vs
exploit once for the whole batch. -/
theorem dqn_c5_counterexample :
    dqn_get_action_claim [1, 0] (1/2) c5_qnet [[0], [1]] [2, 2] = [0, 2] ∧
    ¬ ∃ u : ℚ, dqn_get_action u (1/2) false false c5_qnet [[0], [1]] [2, 2] = [0, 2] := by
  constructor
  · norm_num [dqn_get_action_claim, c5_qnet, List.zip, List.zipWith, argmaxIdx, argmaxAux]
  · rintro ⟨u, h⟩
    by_cases hc : (1/2 : ℚ) < u
    · rw [dqn_get_action, if_pos (Or.inl hc)] at h
      revert h
      norm_num [c5_qnet, argmaxIdx, argmaxAux]
    · have hcond : ¬((1/2 : ℚ) < u ∨ false = true ∨ false = true) := by
        rintro (hx | hx | hx)
        · exact hc hx
        · exact Bool.false_ne_true hx
        · exact Bool.false_ne_true hx
      rw [dqn_get_action, if_neg hcond] at h
      exact absurd h (by decide)

/-- C5 amended: when neither evaluation mode nor noisy nets is active, the
explore-versus-exploit decision is made once per call from a single shared
uniform draw: if the draw exceeds epsilon, every environment receives the
argmax of the Q-network output for its observation; otherwise every
environment receives its (independently drawn) uniform random action. -/
theorem dqn_c5_amended (u eps : ℚ) (qnet : List ℚ → List ℚ)
    (s : List (List ℚ)) (randActs : List ℕ) :
    (eps < u →
      dqn_get_action u eps false false qnet s randActs =
        s.map (fun o => argmaxIdx (qnet o))) ∧
    (u ≤ eps →
      dqn_get_action u eps false false qnet s randActs = randActs) := by
  constructor
  · intro h
    rw [dqn_get_action, if_pos (Or.inl h)]
  · intro h
    have hcond : ¬(eps < u ∨ false = true ∨ false = true) := by
      rintro (hx | hx | hx)
      · exact absurd hx (not_lt.mpr h)
      · exact Bool.false_ne_true hx
      · exact Bool.false_ne_true hx
    rw [dqn_get_action, if_neg hcond]

theorem dqn_c5_witness :
    dqn_get_action 1 (1/2) false false c5_qnet [[0], [1]] [2, 2] =
      [[0], [1]].map (fun o => argmaxIdx (c5_qnet o)) ∧
    dqn_get_action 0 (1/2) false false c5_qnet [[0], [1]] [2, 2] = [2, 2] :=
  ⟨(dqn_c5_amended 1 (1/2) c5_qnet [[0], [1]] [2, 2]).1 (by norm_num),
   (dqn_c5_amended 0 (1/2) c5_qnet [[0], [1]] [2, 2]).2 (by norm_num)⟩

/-- C6: when noisy-parameter exploration is enabled, epsilon-greedy
selection is bypassed entirely: for every draw, every epsilon and every
observation batch, `get_action` returns the per-row argmax of the
Q-network output and never the uniform-random branch; the same holds when
`static_policy` (evaluation mode) is set. -/
theorem dqn_c6_noisy_bypass (u eps : ℚ) (staticPolicy noisyNets : Bool)
    (qnet : List ℚ → List ℚ) (s : List (List ℚ)) (randActs : List ℕ) :
    dqn_get_action u eps staticPolicy true qnet s randActs =
      s.map (fun o => argmaxIdx (qnet o)) ∧
    dqn_get_action u eps true noisyNets qnet s randActs =
      s.map (fun o => argmaxIdx (qnet o)) := by
  constructor
  · rw [dqn_get_action, if_pos (Or.inr (Or.inr rfl))]
  · rw [dqn_get_action, if_pos (Or.inr (Or.inl rfl))]

/-!
## DQN agent: learning-step loss (`Agent.compute_loss`)

Embeds `compute_loss` in agents/DQN.py (lines 158-201).  The minibatch
has `n` rows; per row `i`: `act i` is the taken action, `rew i` the
reward, `term i` the terminal flag (0 or 1).  The Q-networks are
external collaborators: `cq i a` is row `i`, column `a` of
`model(batch_state)` (autograd-tracked, hence a `Dual`), and `tq i a`
the same for `target_model(batch_next_state)`.  The whole target is
computed inside `with torch.no_grad():`, i.e. only the plain values of
the target network outputs enter, as a gradient-free constant.
`loss_fun` is `torch.nn.SmoothL1Loss(reduction='mean')` (beta = 1).
-/

/-- Model of `.max(dim=1)[0]` on one row of the target network's output:
maximum of the plain values of the first `m` entries. -/
def qmax (f : ℕ → Dual) (m : ℕ) : ℚ :=
  (List.range m).foldl (fun acc a => max acc (f a).val) (f 0).val

/-- `next_q_values` of agents/DQN.py line 176 (computed under
`torch.no_grad`): `gamma * target_model(batch_next_state).max(dim=1)[0]
* (1.0 - batch_terminal)`, one row. -/
def dqn_next_q (gam : ℚ) (tq : ℕ → Dual) (m : ℕ) (terminal : ℚ) : ℚ :=
  gam * qmax tq m * (1 - terminal)

/-- `target = batch_reward + next_q_values` (agents/DQN.py line 179),
entering the graph as a gradient-free constant because the whole block is
under `torch.no_grad`. -/
def dqn_target (gam : ℚ) (tq : ℕ → Dual) (m : ℕ) (reward terminal : ℚ) : Dual :=
  Dual.const (reward + dqn_next_q gam tq m terminal)

/-- PyTorch `SmoothL1Loss` with beta = 1 on one residual. -/
def smoothL1 (x : Dual) : Dual :=
  if |x.val| < 1 then Dual.scale (1/2) (x * x)
  else ⟨|x.val| - 1/2, (if x.val < 0 then -1 else 1) * x.der⟩

/-- `SmoothL1Loss(reduction='mean')` between predictions and targets. -/
def smoothL1LossMean (n : ℕ) (c t : ℕ → Dual) : Dual :=
  dmean n (fun i => smoothL1 (c i - t i))

/-- Embedding of `Agent.compute_loss` (agents/DQN.py lines 158-201):
gather the current Q-values at the taken actions, build the bootstrap
target under `no_grad`, and apply the Huber-style loss. -/
def dqn_compute_loss (n m : ℕ) (gam : ℚ) (cq tq : ℕ → ℕ → Dual)
    (act : ℕ → ℕ) (rew term : ℕ → ℚ) : Dual :=
  smoothL1LossMean n (fun i => cq i (act i))
    (fun i => dqn_target gam (tq i) m (rew i) (term i))

theorem qmax_congr (f g : ℕ → Dual) (m : ℕ) (h : ∀ a, (f a).val = (g a).val) :
    qmax f m = qmax g m := by
  have hfold : ∀ (l : List ℕ) (x : ℚ),
      l.foldl (fun acc a => max acc (f a).val) x =
      l.foldl (fun acc a => max acc (g a).val) x := by
    intro l
    induction l with
    | nil => intro x; rfl
    | cons b bs ih => intro x; simp only [List.foldl_cons, h b, ih]
  simp only [qmax, h 0, hfold]

/-- C1: in the DQN learning step, the regression target per minibatch row
equals `batch_reward + gamma * (1 - batch_terminal) * max-over-actions of
the target network on batch_next_state`; the target is computed with
gradients disabled for the target network (the loss depends only on the
target network's plain values, and the target carries zero derivative);
and the loss is the mean SmoothL1 (Huber-style) loss between the gathered
current Q-values and that target. -/
theorem dqn_c1_compute_loss_spec (n m : ℕ) (gam : ℚ) (cq tq tq2 : ℕ → ℕ → Dual)
    (act : ℕ → ℕ) (rew term : ℕ → ℚ)
    (h : ∀ i a, (tq i a).val = (tq2 i a).val) :
    dqn_compute_loss n m gam cq tq act rew term =
      dqn_compute_loss n m gam cq tq2 act rew term ∧
    (∀ i, dqn_target gam (tq i) m (rew i) (term i) =
      Dual.const (rew i + gam * (1 - term i) * qmax (tq i) m)) ∧
    (∀ i, (dqn_target gam (tq i) m (rew i) (term i)).der = 0) ∧
    dqn_compute_loss n m gam cq tq act rew term =
      dmean n (fun i =>
        smoothL1 (cq i (act i) - dqn_target gam (tq i) m (rew i) (term i))) := by
  refine ⟨?_, ?_, ?_, rfl⟩
  · have htgt : ∀ i, dqn_target gam (tq i) m (rew i) (term i) =
        dqn_target gam (tq2 i) m (rew i) (term i) := by
      intro i
      simp only [dqn_target, dqn_next_q, qmax_congr (tq i) (tq2 i) m (h i)]
    simp only [dqn_compute_loss, smoothL1LossMean, dmean]
    rw [dsum_congr _ _ _ (fun i _ => by rw [htgt i])]
  · intro i
    simp only [dqn_target, dqn_next_q]
    congr 1
    ring
  · intro i
    rfl

theorem dqn_c1_witness :
    dqn_compute_loss 1 2 (1/2) (fun _ _ => ⟨2, 3⟩)
        (fun _ a => if a = 0 then ⟨1, 5⟩ else ⟨4, 6⟩) (fun _ => 0)
        (fun _ => 1) (fun _ => 0) =
      dqn_compute_loss 1 2 (1/2) (fun _ _ => ⟨2, 3⟩)
        (fun _ a => if a = 0 then ⟨1, 0⟩ else ⟨4, 0⟩) (fun _ => 0)
        (fun _ => 1) (fun _ => 0) ∧
    (dqn_target (1/2) (fun a => if a = 0 then ⟨1, 5⟩ else ⟨4, 6⟩) 2 1 0).der = 0 :=
  ⟨(dqn_c1_compute_loss_spec 1 2 (1/2) (fun _ _ => ⟨2, 3⟩)
      (fun _ a => if a = 0 then ⟨1, 5⟩ else ⟨4, 6⟩)
      (fun _ a => if a = 0 then ⟨1, 0⟩ else ⟨4, 0⟩) (fun _ => 0)
      (fun _ => 1) (fun _ => 0)
      (fun _ a => by by_cases ha : a = 0 <;> simp [ha])).1,
   (dqn_c1_compute_loss_spec 1 2 (1/2) (fun _ _ => ⟨2, 3⟩)
      (fun _ a => if a = 0 then ⟨1, 5⟩ else ⟨4, 6⟩)
      (fun _ a => if a = 0 then ⟨1, 0⟩ else ⟨4, 0⟩) (fun _ => 0)
      (fun _ => 1) (fun _ => 0)
      (fun _ a => by by_cases ha : a = 0 <;> simp [ha])).2.2.1 0⟩

/-!
## A2C agent: loss computation (`Agent.compute_loss`)

Embeds `compute_loss` in agents/A2C.py (lines 96-132) after flattening
the `(num_steps, num_processes, 1)` window to `n` scalar entries.
`ret i` is the computed return (a plain value: the rollout buffer's
return tensor carries no gradient and is seeded with a `no_grad`
bootstrap value), `values i` and `logp i` are the autograd-tracked value
estimates and action log-probabilities from `evaluate_actions`, and the
entropy term is the mean of the per-entry entropies.
-/

/-- `advantages = rollouts.returns[:-1] - values` (agents/A2C.py line 112). -/
def a2c_advantage (ret : ℕ → ℚ) (values : ℕ → Dual) (i : ℕ) : Dual :=
  Dual.const (ret i) - values i

/-- `value_loss = advantages.pow(2).mul(0.5).mean()` (agents/A2C.py line 113). -/
def a2c_value_loss (n : ℕ) (ret : ℕ → ℚ) (values : ℕ → Dual) : Dual :=
  dmean n (fun i =>
    Dual.scale (1/2) (a2c_advantage ret values i * a2c_advantage ret values i))

/-- `action_loss = -(advantages.detach() * action_log_probs).mean()`
(agents/A2C.py line 115). -/
def a2c_action_loss (n : ℕ) (ret : ℕ → ℚ) (values logp : ℕ → Dual) : Dual :=
  -dmean n (fun i => (a2c_advantage ret values i).detach * logp i)

/-- `dist_entropy = dist.entropy().mean()` (agents/A2C.py line 87). -/
def a2c_dist_entropy (k : ℕ) (entItems : ℕ → Dual) : Dual := dmean k entItems

/-- `loss = action_loss + value_loss_weight * value_loss -
entropy_loss_weight * dist_entropy` (agents/A2C.py lines 117-118). -/
def a2c_loss (n : ℕ) (ret : ℕ → ℚ) (values logp : ℕ → Dual)
    (ent : Dual) (wv we : ℚ) : Dual :=
  a2c_action_loss n ret values logp + Dual.scale wv (a2c_value_loss n ret values) -
    Dual.scale we ent

/-- C2: in the A2C loss, the advantage is return minus value estimate; the
value loss is the mean of half the squared advantage; the policy loss is
minus the mean of the gradient-detached advantage times the action
log-probability, and the detachment means the policy term is unchanged
under any perturbation of the value estimates' derivative components (no
gradient flows from the policy term into the value path); the total loss
is policy loss plus the value-loss weight times the value loss minus the
entropy weight times the mean entropy. -/
theorem a2c_c2_compute_loss_spec (n k : ℕ) (ret : ℕ → ℚ)
    (values values2 logp entItems : ℕ → Dual) (wv we : ℚ)
    (h : ∀ i, (values i).val = (values2 i).val) :
    (∀ i, (a2c_advantage ret values i).val = ret i - (values i).val) ∧
    (a2c_value_loss n ret values).val =
      qmean n (fun i => (1/2) * (ret i - (values i).val) ^ 2) ∧
    (a2c_action_loss n ret values logp).val =
      -qmean n (fun i => (ret i - (values i).val) * (logp i).val) ∧
    a2c_action_loss n ret values logp = a2c_action_loss n ret values2 logp ∧
    a2c_loss n ret values logp (a2c_dist_entropy k entItems) wv we =
      a2c_action_loss n ret values logp +
        Dual.scale wv (a2c_value_loss n ret values) -
        Dual.scale we (dmean k entItems) := by
  refine ⟨fun i => rfl, ?_, ?_, ?_, rfl⟩
  · rw [a2c_value_loss, dmean_val, qmean, qmean]
    congr 1
    refine qsum_congr n _ _ (fun i _ => ?_)
    simp only [Dual.scale_val, Dual.mul_val]
    have hv : (a2c_advantage ret values i).val = ret i - (values i).val := rfl
    rw [hv]
    ring
  · rw [a2c_action_loss, Dual.neg_val, dmean_val, qmean, qmean]
    congr 2
  · rw [a2c_action_loss, a2c_action_loss, dmean, dmean]
    rw [dsum_congr _ _ _ (fun i _ => ?_)]
    refine Dual.ext _ _ ?_ ?_
    · simp only [Dual.mul_val, Dual.detach_val, a2c_advantage, Dual.sub_val,
        Dual.const_val, h i]
    · simp only [Dual.mul_der, Dual.detach_val, Dual.detach_der, a2c_advantage,
        Dual.sub_val, Dual.const_val, h i]

theorem a2c_c2_witness :
    (a2c_value_loss 2 (fun i => i) (fun i => ⟨i + 1, 3⟩)).val =
      qmean 2 (fun i => (1/2) * ((i : ℚ) - ((i : ℚ) + 1)) ^ 2) ∧
    a2c_action_loss 2 (fun i => i) (fun i => ⟨i + 1, 3⟩) (fun _ => ⟨5, 7⟩) =
      a2c_action_loss 2 (fun i => i) (fun i => ⟨i + 1, 9⟩) (fun _ => ⟨5, 7⟩) := by
  have h := a2c_c2_compute_loss_spec 2 1 (fun i => i)
    (fun i => ⟨i + 1, 3⟩) (fun i => ⟨i + 1, 9⟩) (fun _ => ⟨5, 7⟩)
    (fun _ => ⟨1, 1⟩) 1 1 (fun i => rfl)
  exact ⟨h.2.1, h.2.2.2.1⟩

/-!
## DQN agent: update loop state (`Agent.update_`, `Agent.update_target_model`)

The agent state carries the replay memory (the external
`ExperienceReplayMemory.push` appends one transition per call, so the
memory is modelled as a Lean list extended on the right), the update
counter, and the online and target network parameters (an opaque type
`P`).  The sampling / loss / backward / `optimizer.step()` part of the
learning branch only mutates the online parameters; it is abstracted by
an oracle `optStep : P → P` (Adam and autograd are external
collaborators).
-/

/-- Model of Python `zip(s, a, r, s_, t)` as used by `append_to_replay`
(agents/DQN.py line 93): truncates to the shortest input. -/
def zip5 {α β γ δ ε : Type} (s : List α) (a : List β) (r : List γ)
    (s2 : List δ) (t : List ε) : List (α × β × γ × δ × ε) :=
  ((s.zip a).zip ((r.zip s2).zip t)).map
    (fun p => (p.1.1, p.1.2, p.2.1.1, p.2.1.2, p.2.2))

/-- State of the DQN agent relevant to the update loop: replay memory,
the mod-K update counter, and online/target network parameters. -/
structure DQNAgentState (τ P : Type) where
  memory : List τ
  updateCount : ℕ
  online : P
  target : P
  deriving DecidableEq

/-- Embedding of `Agent.update_target_model` (agents/DQN.py lines 266-270):
`update_count += 1; update_count %= target_net_update_freq;
if update_count == 0: target_model.load_state_dict(model.state_dict())`. -/
def dqn_update_target_model {τ P : Type} (K : ℕ) (st : DQNAgentState τ P) :
    DQNAgentState τ P :=
  if (st.updateCount + 1) % K = 0 then
    { st with updateCount := (st.updateCount + 1) % K, target := st.online }
  else { st with updateCount := (st.updateCount + 1) % K }

/-- Embedding of `Agent.update_` (agents/DQN.py lines 203-222): on a
static policy, return immediately; otherwise append one transition per
parallel environment to the replay memory (`append_to_replay`, the zip
loop of lines 93-94), then, only when `tstep >= learn_start`, run the
learning step (minibatch sampling, loss, backward and `optimizer.step()`,
abstracted into `optStep` on the online parameters) followed by
`update_target_model`. -/
def dqn_update_ {α β γ δ ε P : Type} (K learnStart : ℕ) (optStep : P → P)
    (static : Bool) (st : DQNAgentState (α × β × γ × δ × ε) P) (s : List α)
    (a : List β) (r : List γ) (s2 : List δ) (t : List ε) (tstep : ℕ) :
    DQNAgentState (α × β × γ × δ × ε) P :=
  if static then st
  else if tstep < learnStart then
    { st with memory := st.memory ++ zip5 s a r s2 t }
  else
    dqn_update_target_model K
      { st with memory := st.memory ++ zip5 s a r s2 t, online := optStep st.online }

/-- C4: every `update_` call with `static_policy` false appends one
transition per parallel environment (the zipped batch) to the replay
buffer, and when `tstep < learn_start` the call does nothing else: the
resulting state differs from the input state only in the appended
memory; the update counter, the target network and the online network
are untouched (no sampling, no loss, no optimizer step). -/
theorem dqn_c4_update_gating {α β γ δ ε P : Type} (K learnStart : ℕ)
    (optStep : P → P) (st : DQNAgentState (α × β × γ × δ × ε) P) (s : List α)
    (a : List β) (r : List γ) (s2 : List δ) (t : List ε) (tstep N : ℕ)
    (hstep : tstep < learnStart) (hs : s.length = N) (ha : a.length = N)
    (hr : r.length = N) (hs2 : s2.length = N) (ht : t.length = N) :
    dqn_update_ K learnStart optStep false st s a r s2 t tstep =
      { st with memory := st.memory ++ zip5 s a r s2 t } ∧
    (dqn_update_ K learnStart optStep false st s a r s2 t tstep).updateCount =
      st.updateCount ∧
    (dqn_update_ K learnStart optStep false st s a r s2 t tstep).target = st.target ∧
    (dqn_update_ K learnStart optStep false st s a r s2 t tstep).online = st.online ∧
    (zip5 s a r s2 t).length = N := by
  have he : dqn_update_ K learnStart optStep false st s a r s2 t tstep =
      { st with memory := st.memory ++ zip5 s a r s2 t } := by
    rw [dqn_update_, if_neg Bool.false_ne_true, if_pos hstep]
  refine ⟨he, by rw [he], by rw [he], by rw [he], ?_⟩
  simp [zip5, List.length_zip, hs, ha, hr, hs2, ht]

theorem dqn_c4_witness :
    dqn_update_ 5 10 (fun q => q + 1)
        false (⟨[], 2, 3, 4⟩ : DQNAgentState (ℕ × ℕ × ℕ × ℕ × Bool) ℕ)
        [1] [2] [3] [4] [true] 7 =
      ⟨[(1, 2, 3, 4, true)], 2, 3, 4⟩ ∧
    (zip5 [1] [2] [3] [4] [true]).length = 1 := by
  have h := dqn_c4_update_gating 5 10 (fun q => q + 1)
    (⟨[], 2, 3, 4⟩ : DQNAgentState (ℕ × ℕ × ℕ × ℕ × Bool) ℕ)
    [1] [2] [3] [4] [true] 7 1 (by decide) rfl rfl rfl rfl rfl
  exact ⟨h.1, h.2.2.2.2⟩

/-- Learning-active runs of `update_`: `n` successive calls with learning
active (`learn_start = 0`, empty environment batch), where the external
optimizer leaves the online parameters at `p k` after the `k`-th call. -/
def dqn_run_learn {α β γ δ ε P : Type} (K : ℕ) (p : ℕ → P)
    (st : DQNAgentState (α × β × γ × δ × ε) P) : ℕ → DQNAgentState (α × β × γ × δ × ε) P
  | 0 => st
  | n + 1 =>
      dqn_update_ K 0 (fun _ => p (n + 1)) false (dqn_run_learn K p st n)
        [] [] [] [] [] 0

theorem dqn_run_learn_succ {α β γ δ ε P : Type} (K : ℕ) (p : ℕ → P)
    (st : DQNAgentState (α × β × γ × δ × ε) P) (n : ℕ) :
    dqn_run_learn K p st (n + 1) =
      dqn_update_target_model K
        { dqn_run_learn K p st n with online := p (n + 1) } := by
  rw [dqn_run_learn, dqn_update_, if_neg Bool.false_ne_true,
    if_neg (lt_irrefl 0)]
  congr 1
  simp [zip5]

theorem dqn_run_learn_spec {α β γ δ ε P : Type} (K : ℕ) (p : ℕ → P)
    (st : DQNAgentState (α × β × γ × δ × ε) P) (hK : 0 < K)
    (h0 : st.updateCount = 0) (n : ℕ) :
    (dqn_run_learn K p st n).updateCount = n % K ∧
    (dqn_run_learn K p st n).online = (if n = 0 then st.online else p n) ∧
    (dqn_run_learn K p st n).memory = st.memory ∧
    (dqn_run_learn K p st n).target =
      (if n < K then st.target else p (K * (n / K))) := by
  induction n with
  | zero =>
      refine ⟨by simpa [dqn_run_learn] using h0, by simp [dqn_run_learn], rfl, ?_⟩
      simp [dqn_run_learn, if_pos hK]
  | succ n ih =>
      obtain ⟨ihc, iho, ihm, iht⟩ := ih
      have hmod : (n % K + 1) % K = (n + 1) % K := (Nat.mod_modEq n K).add_right 1
      rw [dqn_run_learn_succ, dqn_update_target_model]
      by_cases hsync : (n + 1) % K = 0
      · rw [if_pos (by simp [ihc, hmod, hsync])]
        have hdvd : K ∣ n + 1 := Nat.dvd_of_mod_eq_zero hsync
        have hge : K ≤ n + 1 := Nat.le_of_dvd (Nat.succ_pos n) hdvd
        refine ⟨by simp [ihc, hmod, hsync], by simp, ihm, ?_⟩
        simp only [if_neg (not_lt.mpr hge), Nat.mul_div_cancel' hdvd]
      · rw [if_neg (by simp [ihc, hmod, hsync])]
        refine ⟨by simp [ihc, hmod], by simp, ihm, ?_⟩
        have htg : ({ dqn_run_learn K p st n with online := p (n + 1) } :
            DQNAgentState (α × β × γ × δ × ε) P).target =
            (dqn_run_learn K p st n).target := rfl
        show ({ dqn_run_learn K p st n with online := p (n + 1) } :
            DQNAgentState (α × β × γ × δ × ε) P).target = _
        rw [htg, iht]
        by_cases hn : n + 1 < K
        · rw [if_pos (by omega), if_pos hn]
        · have hne : n + 1 ≠ K := by
            intro heq
            rw [heq, Nat.mod_self] at hsync
            exact hsync rfl
          have hnK : ¬ n < K := by omega
          rw [if_neg hnK, if_neg hn]
          have hndvd : ¬ K ∣ n + 1 := by
            intro hd
            exact hsync (Nat.mod_eq_zero_of_dvd hd)
          rw [Nat.succ_div, if_neg hndvd, add_zero]

/-- C3: with target-sync frequency `K`, the internal update counter is
incremented once per learning update and held modulo `K`; on every `K`-th
learning update the target parameters are overwritten with an exact copy
of the online parameters, and between syncs the target parameters are
never modified: after `n` learning updates the target holds the online
parameters as of update `K * (n / K)` (the initial target before update
`K`).  In particular with `K = 5`: after exactly 5 updates the target
equals the online parameters of update 5; during updates 6 through 9 the
target stays at that copy while the online parameters move on (so they
diverge whenever the optimizer changed them); the 10th update resyncs. -/
theorem dqn_c3_target_sync {α β γ δ ε P : Type} (K : ℕ) (p : ℕ → P)
    (st : DQNAgentState (α × β × γ × δ × ε) P) (hK : 0 < K)
    (h0 : st.updateCount = 0) :
    (∀ n, (dqn_run_learn K p st n).updateCount = n % K ∧
      (dqn_run_learn K p st n).target =
        (if n < K then st.target else p (K * (n / K)))) ∧
    ((dqn_run_learn 5 p st 5).target = p 5 ∧
     (∀ m, 6 ≤ m → m ≤ 9 →
        (dqn_run_learn 5 p st m).target = p 5 ∧
        (dqn_run_learn 5 p st m).online = p m ∧
        (p m ≠ p 5 →
          (dqn_run_learn 5 p st m).target ≠ (dqn_run_learn 5 p st m).online)) ∧
     (dqn_run_learn 5 p st 10).target = p 10) := by
  have h5 := fun n => dqn_run_learn_spec 5 p st (by norm_num) h0 n
  refine ⟨fun n => ⟨(dqn_run_learn_spec K p st hK h0 n).1,
    (dqn_run_learn_spec K p st hK h0 n).2.2.2⟩, ?_, ?_, ?_⟩
  · rw [(h5 5).2.2.2]
    norm_num
  · intro m h6 h9
    have ht : (dqn_run_learn 5 p st m).target = p 5 := by
      rw [(h5 m).2.2.2, if_neg (by omega)]
      congr 1
      omega
    have ho : (dqn_run_learn 5 p st m).online = p m := by
      rw [(h5 m).2.1, if_neg (by omega)]
    exact ⟨ht, ho, fun hne => by rw [ht, ho]; exact hne.symm⟩
  · rw [(h5 10).2.2.2]
    norm_num

theorem dqn_c3_witness :
    (dqn_run_learn 5 (fun n => n + 100)
      (⟨[], 0, 0, 7⟩ : DQNAgentState (ℕ × ℕ × ℕ × ℕ × ℕ) ℕ) 7).target = 105 ∧
    (dqn_run_learn 5 (fun n => n + 100)
      (⟨[], 0, 0, 7⟩ : DQNAgentState (ℕ × ℕ × ℕ × ℕ × ℕ) ℕ) 7).online = 107 := by
  have h := dqn_c3_target_sync 5 (fun n => n + 100)
    (⟨[], 0, 0, 7⟩ : DQNAgentState (ℕ × ℕ × ℕ × ℕ × ℕ) ℕ) (by norm_num) rfl
  obtain ⟨ht, ho, _⟩ := h.2.2.1 7 (by norm_num) (by norm_num)
  exact ⟨ht, ho⟩

/-!
## A2C agent: environment step (`Agent.step`)

Embeds the data flow of `Agent.step` in agents/A2C.py (lines 164-200)
that feeds the rollout buffer: the new observation batch is converted,
optionally divided by `s_norm`, the per-environment masks are computed
as `1 - done`, the observation batch is multiplied elementwise by the
masks (`obs *= masks.view(-1, 1, 1, 1)`, line 198), and the masked
observations together with the masks are handed to `rollouts.insert`.
Observations are lists of rationals (flattened tensors), one per
parallel environment.
-/

/-- Observation normalization of agents/A2C.py line 176:
`obs if s_norm is None else obs / s_norm`. -/
def a2c_norm_obs (sNorm : Option ℚ) (o : List ℚ) : List ℚ :=
  match sNorm with
  | none => o
  | some c => o.map (fun x => x / c)

/-- The mask batch `1. - done` of agents/A2C.py line 180. -/
def a2c_step_masks (done : List Bool) : List ℚ :=
  done.map (fun d => 1 - (if d then (1 : ℚ) else 0))

/-- The observation batch passed to `rollouts.insert` (agents/A2C.py
lines 175-176, 198): normalized and then multiplied elementwise by the
per-environment mask. -/
def a2c_step_stored_obs (sNorm : Option ℚ) (obs : List (List ℚ))
    (done : List Bool) : List (List ℚ) :=
  List.zipWith
    (fun o d => (a2c_norm_obs sNorm o).map (fun x => x * (1 - (if d then (1 : ℚ) else 0))))
    obs done

/-- The `(observation, mask)` pair of arguments handed to
`rollouts.insert` by `Agent.step` (agents/A2C.py line 200). -/
def a2c_step_insert_args (sNorm : Option ℚ) (obs : List (List ℚ))
    (done : List Bool) : List (List ℚ) × List ℚ :=
  (a2c_step_stored_obs sNorm obs done, a2c_step_masks done)

/-- C7: on every A2C step, the observation inserted into the rollout
buffer is multiplied elementwise by the mask `1 - done` before insertion,
so for every environment whose done flag is set the stored observation is
identically zero (no observation information crosses the episode
boundary), and the mask inserted alongside it equals `1 - done` for that
step. -/
theorem a2c_c7_mask_zero (sNorm : Option ℚ) (obs : List (List ℚ))
    (done : List Bool) (i : ℕ) (hd : done.getD i false = true)
    (hi : i < obs.length) :
    (∀ x ∈ ((a2c_step_insert_args sNorm obs done).1).getD i [], x = 0) ∧
    List.Forall₂ (fun (m : ℚ) (d : Bool) => m = 1 - (if d then 1 else 0))
      (a2c_step_insert_args sNorm obs done).2 done := by
  constructor
  · induction obs generalizing done i with
    | nil => exact absurd hi (by simp)
    | cons o os ih =>
        cases done with
        | nil => exact absurd hd (by simp)
        | cons d ds =>
            cases i with
            | zero =>
                have hdt : d = true := by simpa using hd
                intro x hx
                simp only [a2c_step_insert_args, a2c_step_stored_obs,
                  List.zipWith_cons_cons, List.getD_cons_zero, hdt,
                  if_pos rfl] at hx
                obtain ⟨y, _, hy⟩ := List.mem_map.mp hx
                rw [← hy]
                simp
            | succ j =>
                have hd2 : ds.getD j false = true := by simpa using hd
                have hi2 : j < os.length := by simpa using hi
                intro x hx
                refine ih ds j hd2 hi2 x ?_
                simpa [a2c_step_insert_args, a2c_step_stored_obs] using hx
  · simp only [a2c_step_insert_args, a2c_step_masks]
    clear hd hi
    induction done with
    | nil => exact List.Forall₂.nil
    | cons d ds ih => exact List.Forall₂.cons rfl ih

theorem a2c_c7_witness :
    (∀ x ∈ ((a2c_step_insert_args none [[3, 4], [5, 6]] [false, true]).1).getD 1 [],
      x = 0) ∧
    List.Forall₂ (fun (m : ℚ) (d : Bool) => m = 1 - (if d then 1 else 0))
      (a2c_step_insert_args none [[3, 4], [5, 6]] [false, true]).2
      [false, true] :=
  a2c_c7_mask_zero none [[3, 4], [5, 6]] [false, true] 1 (by decide) (by decide)

/-!
## Both agents: optional episode-summary info (`Agent.step` info loop)

Embeds the loop over the per-environment info dictionaries in
`Agent.step`: agents/DQN.py lines 305-309 and agents/A2C.py lines
185-189 run the same pattern `if 'episode' in info.keys():
last_100_rewards.append(info['episode']['r'])`.  An info dictionary is
modelled as an optional `(r, l)` episode summary; the trailing window is
a `collections.deque(maxlen=100)`, so an append at capacity evicts the
oldest entry.  Both loops are total: an absent key is skipped, never an
error.
-/

/-- Model of `collections.deque(maxlen=cap).append`. -/
def deque_append (cap : ℕ) (q : List ℚ) (x : ℚ) : List ℚ :=
  if q.length < cap then q ++ [x] else q.drop (q.length + 1 - cap) ++ [x]

/-- Info loop of `Agent.step` in agents/DQN.py (lines 305-309). -/
def dqn_step_infos (w : List ℚ) (infos : List (Option (ℚ × ℚ))) : List ℚ :=
  infos.foldl
    (fun acc inf => match inf with
      | none => acc
      | some e => deque_append 100 acc e.1) w

/-- Info loop of `Agent.step` in agents/A2C.py (lines 185-189). -/
def a2c_step_infos (w : List ℚ) (infos : List (Option (ℚ × ℚ))) : List ℚ :=
  infos.foldl
    (fun acc inf => match inf with
      | none => acc
      | some e => deque_append 100 acc e.1) w

/-- C8: both agents' step methods treat the per-environment `episode` key
as optional: an environment whose info carries no episode summary leaves
the last-100 reward window unchanged (and raises no error: the loop is
total), while a present summary appends exactly one entry, the episode's
total reward `r`, to the window (evicting the oldest entry when the
window is at its 100-entry capacity). -/
theorem c8_episode_info_optional (w : List ℚ) (rest : List (Option (ℚ × ℚ)))
    (r l : ℚ) (hw : w.length ≤ 100) :
    dqn_step_infos w [] = w ∧
    a2c_step_infos w [] = w ∧
    dqn_step_infos w (none :: rest) = dqn_step_infos w rest ∧
    a2c_step_infos w (none :: rest) = a2c_step_infos w rest ∧
    dqn_step_infos w (some (r, l) :: rest) =
      dqn_step_infos (deque_append 100 w r) rest ∧
    a2c_step_infos w (some (r, l) :: rest) =
      a2c_step_infos (deque_append 100 w r) rest ∧
    (deque_append 100 w r).length = min (w.length + 1) 100 ∧
    (deque_append 100 w r).getLast? = some r := by
  refine ⟨rfl, rfl, rfl, rfl, rfl, rfl, ?_, ?_⟩
  · rw [deque_append]
    by_cases hlt : w.length < 100
    · rw [if_pos hlt]
      simp only [List.length_append, List.length_cons, List.length_nil]
      omega
    · rw [if_neg hlt]
      simp only [List.length_append, List.length_drop, List.length_cons,
        List.length_nil]
      omega
  · rw [deque_append]
    by_cases hlt : w.length < 100
    · rw [if_pos hlt, List.getLast?_concat]
    · rw [if_neg hlt, List.getLast?_concat]

theorem c8_witness :
    dqn_step_infos [3] [none] = [3] ∧
    a2c_step_infos [3] [none] = [3] ∧
    dqn_step_infos [3] [some (2, 9)] = [3, 2] ∧
    (deque_append 100 [3] 2).length = min 2 100 := by
  have h := c8_episode_info_optional [3] [] 2 9 (by decide)
  refine ⟨h.2.2.1, h.2.2.2.1, ?_, ?_⟩
  · rw [h.2.2.2.2.1]
    decide
  · have hlen := h.2.2.2.2.2.2.1
    simpa using hlen

/-!
## A2C agent: learning update (`Agent.update`)

Embeds `Agent.update` in agents/A2C.py (lines 202-211): the bootstrap
value is computed from the final window slot (`observations[-1]`,
`states[-1]`, `masks[-1]`) inside `torch.no_grad()`; then, only when
`current_tstep >= learn_start`, the learning step `update_` runs (it
mutates only the model parameters via loss/backward/optimizer, an
external collaborator abstracted by `learnFn`); finally
`rollouts.after_update()` is called unconditionally.
-/

/-- Rollout window state relevant to `Agent.update`: `lastStep` is the
index `T` of the final (bootstrap) slot; `observations`, `states` and
`masks` index the window slots `0 .. T`. -/
structure RolloutState where
  lastStep : ℕ
  observations : ℕ → List ℚ
  states : ℕ → List ℚ
  masks : ℕ → ℚ

/-- Modelled from the spec: `RolloutStorage.after_update` lives in
utils/RolloutStorage.py, which is not part of the agent sources; per the
spec it copies window step T's observation, recurrent state and mask
into slot 0 of the next window. -/
def after_update (r : RolloutState) : RolloutState :=
  { r with
    observations := fun i =>
      if i = 0 then r.observations r.lastStep else r.observations i,
    states := fun i => if i = 0 then r.states r.lastStep else r.states i,
    masks := fun i => if i = 0 then r.masks r.lastStep else r.masks i }

/-- A2C agent state for `update`: model parameters plus the rollout
window. -/
structure A2CAgentState (P : Type) where
  params : P
  rollouts : RolloutState

/-- The bootstrap value `next_value` of agents/A2C.py lines 203-206:
`get_values(observations[-1], states[-1], masks[-1])` evaluated under
`torch.no_grad()` (hence detached). -/
def a2c_bootstrap (valueNet : List ℚ → List ℚ → ℚ → Dual)
    (r : RolloutState) : Dual :=
  Dual.detach (valueNet (r.observations r.lastStep) (r.states r.lastStep)
    (r.masks r.lastStep))

/-- Embedding of `Agent.update` (agents/A2C.py lines 202-211): compute
the bootstrap value under `no_grad`, run the learning step only when
`learn_start <= current_tstep`, and rotate the rollout window via
`after_update` unconditionally. -/
def a2c_update {P : Type} (learnStart : ℕ)
    (valueNet : List ℚ → List ℚ → ℚ → Dual) (learnFn : P → Dual → P)
    (st : A2CAgentState P) (tstep : ℕ) : A2CAgentState P :=
  let nextValue := a2c_bootstrap valueNet st.rollouts
  let params2 := if learnStart ≤ tstep then learnFn st.params nextValue else st.params
  ⟨params2, after_update st.rollouts⟩

/-- C9: every call to the A2C agent's `update` computes the bootstrap
value from the final window slot with gradients disabled (zero
derivative, and depending only on the plain value of the value network's
output there) and then applies the rollout buffer's `after_update`
rotation exactly once — also when `current_tstep < learn_start`, in
which case nothing else happens: the rotation is unconditional. -/
theorem a2c_c9_after_update {P : Type} (learnStart : ℕ)
    (valueNet valueNet2 : List ℚ → List ℚ → ℚ → Dual) (learnFn : P → Dual → P)
    (st : A2CAgentState P) (tstep : ℕ) :
    (a2c_update learnStart valueNet learnFn st tstep).rollouts =
      after_update st.rollouts ∧
    (a2c_bootstrap valueNet st.rollouts).der = 0 ∧
    ((valueNet (st.rollouts.observations st.rollouts.lastStep)
        (st.rollouts.states st.rollouts.lastStep)
        (st.rollouts.masks st.rollouts.lastStep)).val =
      (valueNet2 (st.rollouts.observations st.rollouts.lastStep)
        (st.rollouts.states st.rollouts.lastStep)
        (st.rollouts.masks st.rollouts.lastStep)).val →
      a2c_bootstrap valueNet st.rollouts = a2c_bootstrap valueNet2 st.rollouts) ∧
    (tstep < learnStart →
      a2c_update learnStart valueNet learnFn st tstep =
        ⟨st.params, after_update st.rollouts⟩) := by
  refine ⟨rfl, rfl, ?_, ?_⟩
  · intro hv
    exact Dual.ext _ _ hv rfl
  · intro hlt
    rw [a2c_update]
    simp only [if_neg (not_le.mpr hlt)]

/-- Value network, rollout window and agent state used by the C9
witness. -/
def c9_vnet : List ℚ → List ℚ → ℚ → Dual := fun _ _ _ => ⟨3, 4⟩

def c9_vnet2 : List ℚ → List ℚ → ℚ → Dual := fun _ _ _ => ⟨3, 9⟩

def c9_rollouts : RolloutState := ⟨2, fun _ => [1], fun _ => [0], fun _ => 1⟩

def c9_state : A2CAgentState ℕ := ⟨5, c9_rollouts⟩

theorem a2c_c9_witness :
    a2c_update 10 c9_vnet (fun q _ => q + 1) c9_state 3 =
      ⟨c9_state.params, after_update c9_rollouts⟩ ∧
    (a2c_bootstrap c9_vnet c9_rollouts).der = 0 ∧
    a2c_bootstrap c9_vnet c9_rollouts = a2c_bootstrap c9_vnet2 c9_rollouts := by
  have h := a2c_c9_after_update 10 c9_vnet c9_vnet2 (fun q _ => q + 1) c9_state 3
  exact ⟨h.2.2.2 (by norm_num), h.2.1, h.2.2.1 rfl⟩
